import Mathlib

/-!
# Verification of the videoCaptioner processing engine

Shallow embedding, in Lean 4, of the core algorithms of the
`itchat/videoCaptioner` repository, together with proofs about them.

The embedded code comes from:

* `src/core/video_processor.py` — SRT parsing/emission
  (`VideoProcessor.translate_subtitles`), the batched LLM translation
  subsystem (`_batch_translate_with_openai`, `_translate_openai_batch`,
  `_translate_openai_multiple_batches`), the pipeline tail of
  `VideoProcessorForMultiprocess.process`, and the bounded multiprocess
  scheduler (`MultiprocessVideoManager`).
* `src/core/speech_recognizer.py` — chunked transcription
  (`_transcribe_with_chunks`, `_merge_chunk_result`).
* `src/core/audio_processor.py` — Whisper model acquisition and
  validation (`get_whisper_model_path`, `_validate_model_file`).

Python strings are modelled by Lean `String`; Python `float` arithmetic
on durations and sizes is modelled exactly over `ℚ` (the computations in
scope are small sums, differences and divisions for which the float
rounding plays no role in any compared quantity); external effects
(HTTP responses, subprocess results, the filesystem) are passed in as
explicit oracle arguments.
-/

namespace VideoCaptioner

/-! ## Python string primitives

The parser and the translator use `str.strip`, `str.split`, `'\n'.join`,
`str.isdigit`, `int(...)` and the `in` substring test.  They are modelled
here over `List Char` (a Lean `String` is a structure holding its
`List Char` data), which keeps the proofs at the well-understood list
level. -/

/-- The whitespace characters stripped by Python's `str.strip()` (the
ASCII ones that can actually occur in this pipeline's data). -/
def wsp (c : Char) : Bool :=
  c == ' ' || c == '\t' || c == '\n' || c == '\r'

/-- Remove trailing `wsp` characters. -/
def trimEndList (l : List Char) : List Char :=
  (l.reverse.dropWhile wsp).reverse

/-- `stripList l` removes leading and trailing whitespace: Python's
`str.strip()` on the underlying character list. -/
def stripList (l : List Char) : List Char :=
  trimEndList (l.dropWhile wsp)

/-- Python `str.strip()`. -/
def pyStrip (s : String) : String :=
  ⟨stripList s.data⟩

/-- Python `'\n'.join(ls)`. -/
def nlJoin (ls : List String) : String :=
  ⟨List.intercalate ['\n'] (ls.map String.data)⟩

/-- Python `s.split('\n')`. -/
def pyLines (s : String) : List String :=
  (s.data.splitOn '\n').map fun l => ⟨l⟩

/-- Python's `str.startswith(pre)`. -/
def pyStartsWith (s pre : String) : Bool :=
  pre.data.isPrefixOf s.data

/-- Find the first occurrence of `sep` in `l`: the characters before it
and the characters after it. -/
def firstSplit (sep : List Char) : List Char → Option (List Char × List Char)
  | [] => none
  | c :: cs =>
    if sep.isPrefixOf (c :: cs) then some ([], (c :: cs).drop sep.length)
    else
      match firstSplit sep cs with
      | some (pre, post) => some (c :: pre, post)
      | none => none

/-- Fuel-driven splitting on a separator word: cut at each occurrence,
left to right, non-overlapping.  The fuel (always instantiated as more
than the number of possible cuts) only makes the recursion structural. -/
def pySplitAux (sep : List Char) : Nat → List Char → List (List Char)
  | 0, l => [l]
  | fuel + 1, l =>
    match firstSplit sep l with
    | none => [l]
    | some (pre, post) => pre :: pySplitAux sep fuel post

/-- Python's `s.split(sep)` for a non-empty separator word (Python
raises on an empty separator; no caller uses one). -/
def pySplit (s sep : String) : List String :=
  if sep.data.isEmpty then [s]
  else (pySplitAux sep.data (s.data.length + 1) s.data).map fun l => ⟨l⟩

/-- Python's `sub in s` substring test. -/
def pyContains (s sub : String) : Bool :=
  (firstSplit sub.data s.data).isSome

/-- Python's `str.isdigit()` on a character.  True for the ASCII decimal
digits and also for other Unicode characters carrying the digit
property; of those, this model includes the superscript digits
U+00B9/U+00B2/U+00B3, which `isdigit` accepts but `int()` rejects. -/
def pyCharIsDigit (c : Char) : Bool :=
  c.isDigit || c == '¹' || c == '²' || c == '³'

/-- Python's `str.isdigit()`: non-empty and all characters digits. -/
def pyStrIsDigit (s : String) : Bool :=
  !s.data.isEmpty && s.data.all pyCharIsDigit

/-- Decimal value of an ASCII digit character. -/
def digitVal (c : Char) : Nat := c.toNat - 48

/-- Python's `int(s)` for the strings that reach it in this code base
(no sign, no surrounding whitespace): defined exactly on non-empty
all-ASCII-decimal strings, `none` models the `ValueError` raised
otherwise (e.g. on superscript digits, which pass `isdigit`). -/
def pyInt? (s : String) : Option Nat :=
  if !s.data.isEmpty && s.data.all Char.isDigit then
    some (s.data.foldl (fun n c => 10 * n + digitVal c) 0)
  else
    none

/-- The ASCII character of one decimal digit. -/
def decDigit (d : Nat) : Char :=
  if d = 0 then '0'
  else if d = 1 then '1'
  else if d = 2 then '2'
  else if d = 3 then '3'
  else if d = 4 then '4'
  else if d = 5 then '5'
  else if d = 6 then '6'
  else if d = 7 then '7'
  else if d = 8 then '8'
  else '9'

/-- Decimal digits of `n`, most significant first.  The fuel argument
only makes the recursion structural; `n` itself is always enough fuel
because the value shrinks by a factor of ten per step. -/
def natToDecAux : Nat → Nat → List Char
  | 0, n => [decDigit (n % 10)]
  | fuel + 1, n =>
    if n < 10 then [decDigit n]
    else natToDecAux fuel (n / 10) ++ [decDigit (n % 10)]

/-- Decimal rendering of a natural number, as Python's `str(n)` /
`f"{n}"` produces it (no sign, no leading zeros, `"0"` for zero). -/
def natToDec (n : Nat) : String :=
  ⟨natToDecAux n n⟩

/-! ## The SRT subtitle codec

`VideoProcessor.translate_subtitles` (`src/core/video_processor.py`,
447–489) parses SRT with a three-state machine over stripped lines and
re-emits `id\n timestamp\n text\n\n` blocks. -/

/-- One parsed subtitle entry (the dict
`{'id': ..., 'timestamp': ..., 'text': ...}` built by the parser). -/
structure SubEntry where
  id : Nat
  timestamp : String
  text : String
deriving DecidableEq, Repr

/-- The value of `parsing_state` in the parser. -/
inductive ParseMode where
  | id
  | timestamp
  | text
deriving DecidableEq, Repr

/-- The loop state of the SRT parser: the current partial cue
(`current_id`, `current_timestamp`, `current_text`), the state-machine
mode, and the accumulated `entries`. -/
structure PState where
  curId : Option Nat
  curTs : String
  curText : List String
  mode : ParseMode
  entries : List SubEntry
deriving DecidableEq, Repr

/-- Initial parser state. -/
def initP : PState :=
  { curId := none, curTs := "", curText := [], mode := .id, entries := [] }

/-- The guard `current_id is not None and current_timestamp and
current_text` of the flush sites. -/
def completeCue (st : PState) : Bool :=
  st.curId.isSome && !(st.curTs == "") && !st.curText.isEmpty

/-- `entries` after flushing the current cue if it is complete (the body
shared by the blank-line case and the end-of-input case). -/
def flushedEntries (st : PState) : List SubEntry :=
  if completeCue st then
    st.entries ++ [⟨st.curId.getD 0, st.curTs, nlJoin st.curText⟩]
  else
    st.entries

/-- One iteration of the parser loop on a raw line.  `none` models the
`ValueError` that `int(line)` raises when `line.isdigit()` holds but the
line is not made of ASCII decimal digits. -/
def parseStep (st : PState) (rawLine : String) : Option PState :=
  let line := pyStrip rawLine
  if line == "" then
    some { curId := none, curTs := "", curText := [], mode := .id,
           entries := flushedEntries st }
  else
    match st.mode with
    | .id =>
      if pyStrIsDigit line then
        match pyInt? line with
        | some n => some { st with curId := some n, mode := .timestamp }
        | none => none
      else
        some st
    | .timestamp =>
      if pyContains line "-->" then
        some { st with curTs := line, mode := .text }
      else
        some st
    | .text =>
      some { st with curText := st.curText ++ [line] }

/-- Run the parser over a list of raw lines from a given state. -/
def parseFold (st : PState) (lines : List String) : Option PState :=
  lines.foldlM parseStep st

/-- The SRT parsing phase of `translate_subtitles`: run the state machine
over all lines, then flush a trailing complete cue.  `none` models the
loop raising. -/
def parseSRTLines (lines : List String) : Option (List SubEntry) :=
  (parseFold initP lines).map flushedEntries

/-- Emission of one entry: the f-string
`f"{entry['id']}\n{entry['timestamp']}\n{entry['text']}\n\n"`. -/
def emitEntry (e : SubEntry) : String :=
  natToDec e.id ++ "\n" ++ e.timestamp ++ "\n" ++ e.text ++ "\n\n"

/-- `translated_content` accumulation: concatenation of the emitted
entries. -/
def emitEntries (es : List SubEntry) : String :=
  es.foldl (fun acc e => acc ++ emitEntry e) ""

/-- `translated_entries.sort(key=lambda x: x['id'])` — Python's stable
sort by the integer id, modelled by the (stable) `List.mergeSort`. -/
def sortById (es : List SubEntry) : List SubEntry :=
  es.mergeSort (fun a b => a.id ≤ b.id)

/-- A string that the parser can have stored as a timestamp: non-empty,
stable under stripping, free of newlines, and containing `-->`. -/
def tsOK (ts : String) : Prop :=
  ts.data ≠ [] ∧ stripList ts.data = ts.data ∧ ('\n' ∉ ts.data) ∧
  pyContains ts "-->" = true

/-- A string the parser can have stored as one text line: non-empty,
stable under stripping, free of newlines. -/
def lineOK (t : String) : Prop :=
  t.data ≠ [] ∧ stripList t.data = t.data ∧ ('\n' ∉ t.data)

/-- Well-formedness of a parsed entry: its timestamp is a stored
timestamp line and every component of its (newline-joined) text is a
stored text line. -/
def WFEntry (e : SubEntry) : Prop :=
  tsOK e.timestamp ∧
  ∀ c ∈ e.text.data.splitOn '\n', c ≠ [] ∧ stripList c = c

/-- Invariant carried by the parser state across lines that contain no
newline character. -/
def stInv (st : PState) : Prop :=
  (st.curTs = "" ∨ tsOK st.curTs) ∧
  (∀ t ∈ st.curText, lineOK t) ∧
  (∀ e ∈ st.entries, WFEntry e)

/-- The lines of the emitted block of one entry, as the re-parse sees
them: the decimal id, the timestamp line, the text lines, and the
terminating blank line. -/
def lineStrs (e : SubEntry) : List String :=
  [natToDec e.id, e.timestamp] ++ (e.text.data.splitOn '\n').map (fun l => (⟨l⟩ : String)) ++ [""]

/-! ## The LLM translation provider

`VideoProcessor._translate_openai_batch` (552–639),
`_batch_translate_with_openai` (530–550) and
`_translate_openai_multiple_batches` (641–704).  The HTTP call is
abstracted into a response oracle `resp : Nat → Option String` giving,
per batch index, either the `choices[0].message.content` of a successful
response, or `none` for any raised exception (non-200 status, content
filter, malformed response body, transport error). -/

/-- Response parsing of `_translate_openai_batch`: the branch choosing
`translated_texts` from the (already stripped) response `content`. -/
def parsedTexts (entries : List SubEntry) (content : String) : List String :=
  if entries.length == 1 then [content]
  else if pyContains content "\n%%\n" then pySplit content "\n%%\n"
  else if pyContains content "%%" then pySplit content "%%"
  else
    let lines := pyLines content
    if entries.length ≤ lines.length then lines.take entries.length
    else [content]

/-- The `while len(translated_texts) < len(entries)` padding loop (pad
missing positions with the original text at the same position) followed
by the `[:len(entries)]` truncation. -/
def padTruncate (texts : List String) (entries : List SubEntry) : List String :=
  (texts ++ (entries.map SubEntry.text).drop texts.length).take entries.length

/-- Construction of one translated entry: strip the parsed part, fall
back to the original text when empty, then append the translation below
the original (`f"{entry['text']}\n{translated_text}"`). -/
def appendTranslation (e : SubEntry) (t0 : String) : SubEntry :=
  let t := pyStrip t0
  { id := e.id, timestamp := e.timestamp,
    text := e.text ++ "\n" ++ (if t == "" then e.text else t) }

/-- `_translate_openai_batch` given the response content of its single
HTTP call. -/
def translateOpenaiBatch (entries : List SubEntry) (responseContent : String) :
    List SubEntry :=
  let content := pyStrip responseContent
  let texts := padTruncate (parsedTexts entries content) entries
  (entries.zip texts).map fun p => appendTranslation p.1 p.2

/-- `sum(len(entry['text']) for entry in entries)`. -/
def charsOf (entries : List SubEntry) : Nat :=
  (entries.map fun e => e.text.length).sum

/-- One iteration of the batch-building loop of
`_translate_openai_multiple_batches`: state `(batches, current_batch,
current_chars)`. -/
def batchStep (maxChars maxEntries : Nat)
    (st : List (List SubEntry) × List SubEntry × Nat) (e : SubEntry) :
    List (List SubEntry) × List SubEntry × Nat :=
  let entryLength := e.text.length
  if (maxEntries ≤ st.2.1.length || maxChars < st.2.2 + entryLength)
      && !st.2.1.isEmpty then
    (st.1 ++ [st.2.1], [e], entryLength)
  else
    (st.1, st.2.1 ++ [e], st.2.2 + entryLength)

/-- The batches built by `_translate_openai_multiple_batches` (the loop
plus the final `if current_batch: batches.append(current_batch)`). -/
def buildBatches (entries : List SubEntry) (maxChars maxEntries : Nat) :
    List (List SubEntry) :=
  let st := entries.foldl (batchStep maxChars maxEntries) ([], [], 0)
  if st.2.1.isEmpty then st.1 else st.1 ++ [st.2.1]

/-- Per-batch body of the translation loop: on a successful response the
batch is translated, on any exception each entry of the batch is rebuilt
with its original id, timestamp and text. -/
def batchOutcome (resp : Nat → Option String) (i : Nat) (batch : List SubEntry) :
    List SubEntry :=
  match resp i with
  | some content => translateOpenaiBatch batch content
  | none => batch.map fun e => { id := e.id, timestamp := e.timestamp, text := e.text }

/-- `_translate_openai_multiple_batches`: split into batches, then
translate batch by batch, concatenating into `all_translated`.  The
second component records, in order, the batch indices for which a
request was issued (each loop iteration issues exactly one). -/
def translateOpenaiMultipleBatches (entries : List SubEntry)
    (maxChars maxEntries : Nat) (resp : Nat → Option String) :
    List SubEntry × List Nat :=
  let batches := buildBatches entries maxChars maxEntries
  batches.enum.foldl
    (fun acc p => (acc.1 ++ batchOutcome resp p.1 p.2, acc.2 ++ [p.1])) ([], [])

/-- `_batch_translate_with_openai`: dispatch as a single request when
both budgets allow, otherwise split into multiple batches.  In the
single-request path an exception propagates (`none`); in the
multiple-batch path exceptions are absorbed per batch. -/
def batchTranslateWithOpenai (entries : List SubEntry) (maxChars maxEntries : Nat)
    (resp : Nat → Option String) : Option (List SubEntry × List Nat) :=
  if charsOf entries ≤ maxChars ∧ entries.length ≤ maxEntries then
    match resp 0 with
    | some content => some (translateOpenaiBatch entries content, [0])
    | none => none
  else
    some (translateOpenaiMultipleBatches entries maxChars maxEntries resp)

/-- Well-formedness of one produced batch: non-empty, within the entry
budget, and within the character budget unless it is a lone oversized
cue. -/
def goodBatch (maxChars maxEntries : Nat) (b : List SubEntry) : Prop :=
  b ≠ [] ∧ b.length ≤ maxEntries ∧ (2 ≤ b.length → charsOf b ≤ maxChars)

/-- Invariant of the batch-building fold state `(batches, current_batch,
current_chars)`. -/
def bbInv (maxChars maxEntries : Nat)
    (st : List (List SubEntry) × List SubEntry × Nat) : Prop :=
  (∀ b ∈ st.1, goodBatch maxChars maxEntries b) ∧
  st.2.2 = charsOf st.2.1 ∧
  st.2.1.length ≤ maxEntries ∧
  (2 ≤ st.2.1.length → charsOf st.2.1 ≤ maxChars)

/-! ## Chunked transcription

`SpeechRecognizer._transcribe_with_chunks` (389–449) and
`_merge_chunk_result` (483–528) of `src/core/speech_recognizer.py`.
Durations are Python floats; they are modelled over `ℚ`. -/

/-- `step_duration = chunk_duration - overlap_duration`. -/
def stepDuration (chunkDuration overlapDuration : ℚ) : ℚ :=
  chunkDuration - overlapDuration

/-- `total_chunks = max(1, math.ceil((audio_duration - overlap_duration)
/ step_duration))`. -/
def totalChunks (audioDuration chunkDuration overlapDuration : ℚ) : ℤ :=
  max 1 ⌈(audioDuration - overlapDuration) / stepDuration chunkDuration overlapDuration⌉

/-- `start_time = chunk_idx * step_duration`. -/
def chunkStartTime (chunkDuration overlapDuration : ℚ) (i : ℕ) : ℚ :=
  i * stepDuration chunkDuration overlapDuration

/-- `end_time = min(start_time + chunk_duration, audio_duration)`. -/
def chunkStopTime (audioDuration chunkDuration overlapDuration : ℚ) (i : ℕ) : ℚ :=
  min (chunkStartTime chunkDuration overlapDuration i + chunkDuration) audioDuration

/-- The time ranges of all chunks processed by the loop
`for chunk_idx in range(total_chunks)`. -/
def chunkRanges (audioDuration chunkDuration overlapDuration : ℚ) : List (ℚ × ℚ) :=
  (List.range (totalChunks audioDuration chunkDuration overlapDuration).toNat).map
    fun i => (chunkStartTime chunkDuration overlapDuration i,
              chunkStopTime audioDuration chunkDuration overlapDuration i)

/-- A word/token with aligned times (`AlignedToken(text, start, end, id,
duration)`); the source's `end` field is named `stop` here because `end`
is a Lean keyword. -/
structure AlignedToken where
  text : String
  start : ℚ
  stop : ℚ
  id : Nat
  duration : ℚ
deriving DecidableEq, Repr

/-- A sentence with aligned times and its tokens (`AlignedSentence(text,
start, end, tokens)`). -/
structure AlignedSentence where
  text : String
  start : ℚ
  stop : ℚ
  tokens : List AlignedToken
deriving DecidableEq, Repr

/-- Token adjustment inside `_merge_chunk_result`: both timestamps are
shifted by the chunk's time offset and the duration is recomputed from
the shifted bounds. -/
def adjustToken (timeOffset : ℚ) (w : AlignedToken) : AlignedToken :=
  { text := w.text, start := w.start + timeOffset, stop := w.stop + timeOffset,
    id := w.id, duration := (w.stop + timeOffset) - (w.start + timeOffset) }

/-- Sentence adjustment inside `_merge_chunk_result`. -/
def adjustSentence (timeOffset : ℚ) (s : AlignedSentence) : AlignedSentence :=
  { text := s.text, start := s.start + timeOffset, stop := s.stop + timeOffset,
    tokens := s.tokens.map (adjustToken timeOffset) }

/-- `_merge_chunk_result`: shift every sentence of the chunk result by
`time_offset` and append it to `all_sentences` unless it starts inside
the chunk's leading overlap region (`time_offset == 0 or
adjusted_sentence.start >= time_offset + overlap_duration`). -/
def mergeChunkResult (chunkSentences allSentences : List AlignedSentence)
    (timeOffset overlapDuration : ℚ) : List AlignedSentence :=
  chunkSentences.foldl
    (fun acc s =>
      let adj := adjustSentence timeOffset s
      if timeOffset = 0 ∨ timeOffset + overlapDuration ≤ adj.start then
        acc ++ [adj]
      else acc)
    allSentences

/-! ## The pipeline tail and skip conditions

`VideoProcessorForMultiprocess.process` (1021–1070, the canonical
multiprocess variant; `VideoProcessor.run` at 144–218 behaves the same
way with Qt signals), `generate_subtitles` (400–405/1114–1119) and the
empty-input short circuit of `translate_subtitles` (442–445). -/

/-- Progress/status events a worker emits onto the progress queue. -/
inductive PEvent where
  | progress (percent : Nat)
  | status (text : String)
deriving DecidableEq, Repr

/-- Terminal outcome of one job (the `status` field of the dict that
`process` returns, resp. the error raised). -/
inductive JobOutcome where
  | completed
  | skipped (reason : String)
  | failed (msg : String)
deriving DecidableEq, Repr

/-- The part of `process` after the translate stage has produced
`translated_content`: events emitted from that point on, the terminal
outcome, and whether the burn stage ran (`burnOk` abstracts the external
tool succeeding). -/
def processTail (translatedContent : String) (burnOk : Bool) :
    List PEvent × JobOutcome × Bool :=
  if translatedContent == "" || pyStrip translatedContent == "" then
    ([.status "Empty bilingual subtitles, skipping video synthesis", .progress 100],
     .skipped "empty_subtitles", false)
  else if burnOk then
    ([.progress 80, .status "Synthesizing video...", .progress 100,
      .status "Processing completed!"],
     .completed, true)
  else
    ([.progress 80, .status "Synthesizing video..."],
     .failed "Processing failed", true)

/-- `generate_subtitles` as a function of the extracted audio artifact's
byte size: below 1000 bytes an empty SRT is written, otherwise the
transcription output is written. -/
def generateSubtitles (audioSizeBytes : Nat) (transcribedSrt : String) : String :=
  if audioSizeBytes < 1000 then "" else transcribedSrt

/-- `translate_subtitles` with the provider pass abstracted: empty input
returns `""` before any provider is consulted; otherwise parse,
translate, sort by id, and emit. -/
def translateSubtitlesWith (provider : List SubEntry → List SubEntry)
    (lines : List String) : Option String :=
  if lines.isEmpty || lines.all (fun l => pyStrip l == "") then some ""
  else
    match parseSRTLines lines with
    | none => none
    | some entries =>
      if entries.length == 0 then some ""
      else some (emitEntries (sortById (provider entries)))

/-! ## The multiprocess scheduler

`MultiprocessVideoManager` (1521–1697): a FIFO `pending_tasks` list, an
`active_processes` table bounded by `max_processes`, task ids handed out
by `next_process_id`.  `submit_video` appends to the queue and calls
`_try_start_next_tasks`; the poll entry points
(`get_progress_updates`, `is_all_complete`) clean up finished processes
and call `_try_start_next_tasks` as well.  Process death is modelled by
the `dead` argument of the cleanup. -/

/-- Scheduler state: `pending` and `running` hold task ids; `started`
records every admitted id in admission order; `nextId` is
`next_process_id`. -/
structure SchedState where
  pending : List Nat
  running : List Nat
  started : List Nat
  nextId : Nat
  maxProcesses : Nat
deriving DecidableEq, Repr

/-- The body of `_try_start_next_tasks`: while a slot is free and tasks
are pending, pop the head of the queue and start it.  The fuel argument
only makes the `while` loop structural; each iteration removes one
pending task, so `pending.length` fuel always suffices. -/
def tryStartLoop : Nat → SchedState → SchedState
  | 0, s => s
  | fuel + 1, s =>
    match s.pending with
    | [] => s
    | t :: rest =>
      if s.running.length < s.maxProcesses then
        tryStartLoop fuel { s with pending := rest, running := s.running ++ [t],
                                   started := s.started ++ [t] }
      else s

/-- `_try_start_next_tasks`. -/
def tryStartNext (s : SchedState) : SchedState :=
  tryStartLoop s.pending.length s

/-- `_cleanup_finished_processes`: drop the ids of dead processes from
the active table. -/
def cleanupFinished (s : SchedState) (dead : List Nat) : SchedState :=
  { s with running := s.running.filter fun i => !(dead.contains i) }

/-- `submit_video`: enqueue a fresh task id, then clean up and try to
start pending tasks. -/
def submitVideo (s : SchedState) (dead : List Nat) : SchedState :=
  tryStartNext (cleanupFinished
    { s with pending := s.pending ++ [s.nextId], nextId := s.nextId + 1 } dead)

/-- The poll entry points: clean up finished processes, then try to
start pending tasks. -/
def pollScheduler (s : SchedState) (dead : List Nat) : SchedState :=
  tryStartNext (cleanupFinished s dead)

/-- One observable scheduler transition. -/
inductive SchedStep : SchedState → SchedState → Prop where
  | submit (s : SchedState) (dead : List Nat) : SchedStep s (submitVideo s dead)
  | poll (s : SchedState) (dead : List Nat) : SchedStep s (pollScheduler s dead)

/-- Freshly constructed manager. -/
def initSched (maxProcesses : Nat) : SchedState :=
  { pending := [], running := [], started := [], nextId := 0,
    maxProcesses := maxProcesses }

/-- States reachable from a fresh manager by submit/poll transitions. -/
def SchedReachable (maxProcesses : Nat) (s : SchedState) : Prop :=
  Relation.ReflTransGen SchedStep (initSched maxProcesses) s

/-! ## Whisper model acquisition

`AudioProcessor.get_whisper_model_path` (69–185) and
`_validate_model_file` (187–231) of `src/core/audio_processor.py`.  The
filesystem and the network are abstracted into a `ModelEnv`: the
candidate files that exist and what one download attempt would yield. -/

/-- What validation sees of a model file: its size in bytes, its first
header bytes (as a string), and whether the final kilobyte is
readable. -/
structure ModelFile where
  sizeBytes : Nat
  header : String
  tailReadable : Bool
deriving DecidableEq, Repr

/-- `min_size = 1.4 * 1024 * 1024 * 1024` (no integer byte count falls
between the Python float and this rational). -/
def minModelSize : ℚ := 14 / 10 * 1024 ^ 3

/-- `max_size = 2.0 * 1024 * 1024 * 1024`. -/
def maxModelSize : ℚ := 2 * 1024 ^ 3

/-- `_validate_model_file`: `False` for a missing file, a size outside
the band, a header without the GGML magic, or an unreadable tail. -/
def validateModelFile (f : Option ModelFile) : Bool :=
  match f with
  | none => false
  | some f =>
    if (f.sizeBytes : ℚ) < minModelSize then false
    else if maxModelSize < (f.sizeBytes : ℚ) then false
    else if !(pyStartsWith f.header "ggml" || pyStartsWith f.header "GGML") then false
    else if !f.tailReadable then false
    else true

/-- Environment of one acquisition call: the user-directory model file
(if present), the app-directory model file (if present), whether the
process runs bundled, and what a download attempt would produce
(`none` = the download itself raises). -/
structure ModelEnv where
  userModel : Option ModelFile
  appModel : Option ModelFile
  isBundled : Bool
  download : Option ModelFile
deriving DecidableEq, Repr

/-- Result of `get_whisper_model_path`: the returned path or raised
error, how many downloads were attempted, and the user-directory file
left on disk afterwards. -/
structure AcquireResult where
  result : Except String String
  downloadAttempts : Nat
  userFileOnDisk : Option ModelFile
deriving Repr

/-- `get_whisper_model_path`: prefer a valid user-directory file (a
corrupted one is removed), then (outside a bundle) a valid app file;
otherwise download once; a downloaded file failing validation is removed
and the call raises — there is no second download attempt inside the
call. -/
def getWhisperModelPath (env : ModelEnv) : AcquireResult :=
  if validateModelFile env.userModel then
    { result := .ok "user_model", downloadAttempts := 0,
      userFileOnDisk := env.userModel }
  else if !env.isBundled && validateModelFile env.appModel then
    { result := .ok "app_model", downloadAttempts := 0, userFileOnDisk := none }
  else
    match env.download with
    | none =>
      { result := .error "Failed to download Whisper model",
        downloadAttempts := 1, userFileOnDisk := none }
    | some f =>
      if validateModelFile (some f) then
        { result := .ok "user_model", downloadAttempts := 1,
          userFileOnDisk := some f }
      else
        { result := .error "Downloaded model file failed validation",
          downloadAttempts := 1, userFileOnDisk := none }

/-! ## Concrete instances used in witnesses and counterexamples -/

/-- A downloaded file of in-band size whose header lacks the GGML magic. -/
def corruptModelFile : ModelFile :=
  { sizeBytes := 1600000000, header := "nope", tailReadable := true }

/-- Environment in which every cached location misses and the one
download produces `corruptModelFile`. -/
def corruptDownloadEnv : ModelEnv :=
  { userModel := none, appModel := none, isBundled := false,
    download := some corruptModelFile }

/-- First cue of the spec's two-cue boundary scenario. -/
def demoCue1 : SubEntry :=
  { id := 1, timestamp := "00:00:01,000 --> 00:00:02,000", text := "Hello" }

/-- Second cue of the spec's two-cue boundary scenario. -/
def demoCue2 : SubEntry :=
  { id := 2, timestamp := "00:00:03,000 --> 00:00:04,000", text := "World" }

/-- A cue whose text alone exceeds a 5-character batch budget. -/
def oversizedCue : SubEntry :=
  { id := 1, timestamp := "00:00:01,000 --> 00:00:02,000", text := "aaaaaa" }

/-- A response oracle whose request for batch 0 raises while every other
request succeeds. -/
def respFail0 : Nat → Option String :=
  fun j => if j = 0 then none else some "X"

/-- A two-cue SRT file whose parse is `[demoCue1, demoCue2]`. -/
def demoSrt : String :=
  "1\n00:00:01,000 --> 00:00:02,000\nHello\n\n2\n00:00:03,000 --> 00:00:04,000\nWorld\n\n"

/-! ## Theorems -/

/-! ### String-primitive lemmas -/

/-- Helper: `dropWhile` is idempotent. -/
theorem dropWhile_dropWhile (p : Char → Bool) (l : List Char) :
    (l.dropWhile p).dropWhile p = l.dropWhile p := by
  induction l with
  | nil => rfl
  | cons c cs ih =>
    by_cases h : p c
    · simp [List.dropWhile_cons, h, ih]
    · simp [List.dropWhile_cons, h]

/-- Helper: a prefix of a `dropWhile` fixed point is a fixed point. -/
theorem dropWhile_eq_self_of_prefix (p : Char → Bool) (m t : List Char)
    (hm : m.dropWhile p = m) (ht : t <+: m) : t.dropWhile p = t := by
  cases t with
  | nil => rfl
  | cons a ts =>
    obtain ⟨r, hr⟩ := ht
    subst hr
    have hpa : p a = false := by
      by_contra hpa
      rw [Bool.not_eq_false] at hpa
      have hlen := congrArg List.length hm
      rw [List.cons_append, List.dropWhile_cons, if_pos hpa] at hlen
      have hle := (List.dropWhile_suffix (l := ts ++ r) p).length_le
      simp at hlen hle
      omega
    rw [List.dropWhile_cons]
    simp [hpa]

/-- Helper: `trimEndList` returns a prefix of its input. -/
theorem trimEndList_prefix_self (l : List Char) : trimEndList l <+: l := by
  have h : trimEndList l <+: l.reverse.reverse := by
    rw [trimEndList]
    exact List.reverse_prefix.mpr (List.dropWhile_suffix wsp)
  simpa using h

/-- Helper: stripping is idempotent. -/
theorem stripList_idem (l : List Char) : stripList (stripList l) = stripList l := by
  have hfront : (stripList l).dropWhile wsp = stripList l := by
    rw [stripList]
    exact dropWhile_eq_self_of_prefix wsp (l.dropWhile wsp) _
      (dropWhile_dropWhile wsp l) (trimEndList_prefix_self _)
  have hback : ∀ m : List Char, trimEndList (trimEndList m) = trimEndList m := by
    intro m
    show ((trimEndList m).reverse.dropWhile wsp).reverse = trimEndList m
    rw [trimEndList, List.reverse_reverse, dropWhile_dropWhile]
  rw [stripList, hfront, stripList, hback]

/-- Helper: stripping keeps only characters of the input. -/
theorem mem_stripList (l : List Char) (a : Char) (h : a ∈ stripList l) : a ∈ l := by
  rw [stripList, trimEndList, List.mem_reverse] at h
  have h2 := (List.dropWhile_suffix wsp).sublist.subset h
  rw [List.mem_reverse] at h2
  exact (List.dropWhile_suffix wsp).sublist.subset h2

/-- Helper: a list of non-whitespace characters strips to itself. -/
theorem stripList_of_clean (l : List Char) (h : ∀ a ∈ l, wsp a = false) :
    stripList l = l := by
  have h1 : l.dropWhile wsp = l := by
    cases l with
    | nil => rfl
    | cons c cs =>
      rw [List.dropWhile_cons]
      simp [h c (by simp)]
  have h2 : l.reverse.dropWhile wsp = l.reverse := by
    cases hl : l.reverse with
    | nil => rfl
    | cons c cs =>
      rw [List.dropWhile_cons]
      have hc : c ∈ l := by
        rw [← List.mem_reverse, hl]
        simp
      simp [h c hc]
  rw [stripList, h1, trimEndList, h2, List.reverse_reverse]

/-- Helper: a string whose data strips to itself is a `pyStrip` fixed
point. -/
theorem pyStrip_eq_self (s : String) (h : stripList s.data = s.data) :
    pyStrip s = s := by
  rw [pyStrip, h]

/-- Helper: every character of every part of `splitOnP` fails the
predicate. -/
theorem splitOnP_parts_clean (p : Char → Bool) (xs : List Char) :
    ∀ l ∈ xs.splitOnP p, ∀ a ∈ l, p a = false := by
  induction xs with
  | nil =>
    intro l hl a ha
    rw [List.splitOnP_nil] at hl
    simp at hl
    subst hl
    simp at ha
  | cons x xs ih =>
    intro l hl a ha
    rw [List.splitOnP_cons] at hl
    by_cases hx : p x
    · rw [if_pos hx] at hl
      rcases List.mem_cons.mp hl with h1 | h1
      · subst h1
        simp at ha
      · exact ih l h1 a ha
    · rw [if_neg hx] at hl
      cases hsp : xs.splitOnP p with
      | nil => exact absurd hsp (List.splitOnP_ne_nil p xs)
      | cons hd tl =>
        rw [hsp, List.modifyHead_cons] at hl
        rcases List.mem_cons.mp hl with h1 | h1
        · subst h1
          rcases List.mem_cons.mp ha with h2 | h2
          · subst h2
            exact Bool.eq_false_iff.mpr hx
          · exact ih hd (by rw [hsp]; simp) a h2
        · exact ih l (by rw [hsp]; simp [h1]) a ha

/-- Helper: no part of `splitOn x` contains `x`. -/
theorem splitOn_parts_no_sep (xs : List Char) (x : Char) :
    ∀ l ∈ xs.splitOn x, x ∉ l := by
  intro l hl hx
  rw [List.splitOn] at hl
  have := splitOnP_parts_clean (· == x) xs l hl x hx
  simp at this

/-! ### Decimal rendering lemmas -/

/-- Helper: every possible decimal digit character is a clean ASCII
digit. -/
theorem decDigit_clean (d : Nat) :
    (decDigit d).isDigit = true ∧ wsp (decDigit d) = false ∧
    decDigit d ≠ '\n' ∧ pyCharIsDigit (decDigit d) = true := by
  unfold decDigit
  split_ifs <;> exact ⟨by decide, by decide, by decide, by decide⟩

/-- Helper: the digit value of a rendered digit below ten. -/
theorem digitVal_decDigit (d : Nat) (h : d < 10) : digitVal (decDigit d) = d := by
  unfold decDigit
  split_ifs with h0 h1 h2 h3 h4 h5 h6 h7 h8
  · subst h0; decide
  · subst h1; decide
  · subst h2; decide
  · subst h3; decide
  · subst h4; decide
  · subst h5; decide
  · subst h6; decide
  · subst h7; decide
  · subst h8; decide
  · have h9 : d = 9 := by omega
    subst h9; decide

/-- Helper: with enough fuel, the decimal rendering yields a non-empty
list of clean digit characters whose base-ten value is the input. -/
theorem natToDecAux_spec (fuel : Nat) :
    ∀ n, n ≤ fuel →
      (∀ c ∈ natToDecAux fuel n,
        c.isDigit = true ∧ wsp c = false ∧ c ≠ '\n' ∧ pyCharIsDigit c = true) ∧
      natToDecAux fuel n ≠ [] ∧
      (natToDecAux fuel n).foldl (fun a c => 10 * a + digitVal c) 0 = n := by
  induction fuel with
  | zero =>
    intro n hn
    have hz : n = 0 := by omega
    subst hz
    refine ⟨?_, by simp [natToDecAux], ?_⟩
    · intro c hc
      simp [natToDecAux] at hc
      subst hc
      exact decDigit_clean 0
    · simp [natToDecAux]
      decide
  | succ fuel ih =>
    intro n hn
    rw [natToDecAux]
    by_cases h10 : n < 10
    · rw [if_pos h10]
      refine ⟨?_, by simp, ?_⟩
      · intro c hc
        simp at hc
        subst hc
        exact decDigit_clean n
      · simp [digitVal_decDigit n h10]
    · rw [if_neg h10]
      have hdiv : n / 10 ≤ fuel := by omega
      obtain ⟨ihc, ihne, ihval⟩ := ih (n / 10) hdiv
      refine ⟨?_, by simp, ?_⟩
      · intro c hc
        rcases List.mem_append.mp hc with h1 | h1
        · exact ihc c h1
        · simp at h1
          subst h1
          exact decDigit_clean _
      · rw [List.foldl_append, ihval]
        simp [digitVal_decDigit (n % 10) (by omega)]
        omega

/-- Helper: the decimal rendering of `n` is a non-blank all-digit string
that `int()` parses back to `n` and that stripping leaves unchanged. -/
theorem natToDec_props (n : Nat) :
    pyStrIsDigit (natToDec n) = true ∧ pyInt? (natToDec n) = some n ∧
    stripList (natToDec n).data = (natToDec n).data ∧
    (natToDec n).data ≠ [] ∧ ('\n' ∉ (natToDec n).data) ∧
    (natToDec n == "") = false ∧ pyStrip (natToDec n) = natToDec n := by
  obtain ⟨hc, hne, hval⟩ := natToDecAux_spec n n (le_refl n)
  have hdata : (natToDec n).data = natToDecAux n n := rfl
  have hstrip : stripList (natToDec n).data = (natToDec n).data := by
    rw [hdata]
    exact stripList_of_clean _ fun a ha => (hc a ha).2.1
  have hnonnil : (natToDec n).data ≠ [] := by
    rw [hdata]
    exact hne
  have hbeq : (natToDec n == "") = false := by
    rw [beq_eq_false_iff_ne]
    intro habs
    exact hnonnil (congrArg String.data habs)
  refine ⟨?_, ?_, hstrip, hnonnil, ?_, hbeq, pyStrip_eq_self _ hstrip⟩
  · rw [pyStrIsDigit, hdata]
    have h1 : natToDecAux n n ≠ [] := hne
    have h2 : (natToDecAux n n).all pyCharIsDigit = true :=
      List.all_eq_true.mpr fun c hcm => (hc c hcm).2.2.2
    simp [h1, h2]
  · rw [pyInt?, hdata]
    have h1 : natToDecAux n n ≠ [] := hne
    have h2 : (natToDecAux n n).all Char.isDigit = true :=
      List.all_eq_true.mpr fun c hcm => (hc c hcm).1
    simp [h1, h2, hval]
  · rw [hdata]
    intro habs
    exact absurd rfl ((hc _ habs).2.2.1)

/-- C4: for all durations `d > c > o > 0` (over `ℚ`), the chunked
transcription uses `step = c − o` chunks counted by
`total_chunks = ⌈(d − o) / step⌉` (the `max 1` guard in the source is
inert under these hypotheses), chunk `i` spans
`[i·step, min(i·step + c, d)]`, and in particular duration 310 with
chunk 120 and overlap 15 yields exactly the 3 chunks
`[0,120]`, `[105,225]`, `[210,310]`. -/
theorem chunk_schedule_correct (d c o : ℚ) (hoc : o < c) (hcd : c < d) (ho : 0 < o) :
    totalChunks d c o = ⌈(d - o) / (c - o)⌉ ∧
    (∀ i : ℕ, chunkStartTime c o i = i * (c - o) ∧
      chunkStopTime d c o i = min (i * (c - o) + c) d) ∧
    chunkRanges 310 120 15 = [(0, 120), (105, 225), (210, 310)] := by
  refine ⟨?_, ?_, ?_⟩
  · have hco : 0 < c - o := by linarith
    have hpos : 0 < (d - o) / (c - o) := div_pos (by linarith) hco
    have h1 : (1 : ℤ) ≤ ⌈(d - o) / (c - o)⌉ := Int.ceil_pos.mpr hpos
    simp [totalChunks, stepDuration, max_eq_right h1]
  · intro i
    simp [chunkStartTime, chunkStopTime, stepDuration]
  · have hceil : ⌈((310 : ℚ) - 15) / ((120 : ℚ) - 15)⌉ = 3 := by
      rw [Int.ceil_eq_iff]
      norm_num
    have htot : totalChunks 310 120 15 = 3 := by
      rw [totalChunks, stepDuration, hceil]
      decide
    rw [chunkRanges, htot]
    simp [List.range_succ, chunkStartTime, chunkStopTime, stepDuration]
    norm_num

/-- C4 witness: the theorem instantiated at the concrete durations of
the spec's boundary scenario. -/
theorem chunk_schedule_correct_witness :
    totalChunks 310 120 15 = ⌈((310 : ℚ) - 15) / ((120 : ℚ) - 15)⌉ ∧
    (∀ i : ℕ, chunkStartTime 120 15 i = i * ((120 : ℚ) - 15) ∧
      chunkStopTime 310 120 15 i = min (i * ((120 : ℚ) - 15) + 120) 310) ∧
    chunkRanges 310 120 15 = [(0, 120), (105, 225), (210, 310)] :=
  chunk_schedule_correct 310 120 15 (by norm_num) (by norm_num) (by norm_num)

/-- Helper: the merge loop of `_merge_chunk_result` is append-filter-map. -/
theorem mergeChunkResult_eq_filter (cs : List AlignedSentence) (acc : List AlignedSentence)
    (t o : ℚ) :
    mergeChunkResult cs acc t o =
      acc ++ (cs.map (adjustSentence t)).filter
        (fun s => decide (t = 0 ∨ t + o ≤ s.start)) := by
  induction cs generalizing acc with
  | nil => simp [mergeChunkResult]
  | cons s cs ih =>
    show mergeChunkResult cs _ t o = _
    rw [ih]
    by_cases h : t = 0 ∨ t + o ≤ (adjustSentence t s).start
    · simp [h, List.append_assoc]
    · simp [h]

/-- C5: merging a chunk result with time offset `t` shifts every
sentence timestamp, every token timestamp and the sentence's tokens by
`+t`, and a sentence is appended to the accumulated list exactly when
`t = 0` or its shifted start lies at or after `t` plus the overlap;
sentences of a later chunk starting inside the leading overlap region
are dropped. -/
theorem merge_chunk_overlap_filter (cs acc : List AlignedSentence) (t o : ℚ) :
    mergeChunkResult cs acc t o =
      acc ++ (cs.map (adjustSentence t)).filter
        (fun s => decide (t = 0 ∨ t + o ≤ s.start)) ∧
    (∀ s, (adjustSentence t s).start = s.start + t ∧
      (adjustSentence t s).stop = s.stop + t ∧
      (adjustSentence t s).tokens = s.tokens.map (adjustToken t)) ∧
    (∀ w, (adjustToken t w).start = w.start + t ∧ (adjustToken t w).stop = w.stop + t) ∧
    (∀ x, x ∈ mergeChunkResult cs acc t o ↔
      x ∈ acc ∨ ∃ s, s ∈ cs ∧ x = adjustSentence t s ∧ (t = 0 ∨ t + o ≤ s.start + t)) := by
  refine ⟨mergeChunkResult_eq_filter cs acc t o, ?_, ?_, ?_⟩
  · intro s; exact ⟨rfl, rfl, rfl⟩
  · intro w; exact ⟨rfl, rfl⟩
  · intro x
    rw [mergeChunkResult_eq_filter]
    simp only [List.mem_append, List.mem_filter, List.mem_map, decide_eq_true_eq]
    constructor
    · rintro (hx | ⟨⟨s, hs, rfl⟩, hcond⟩)
      · exact Or.inl hx
      · exact Or.inr ⟨s, hs, rfl, by simpa [adjustSentence, add_comm] using hcond⟩
    · rintro (hx | ⟨s, hs, rfl, hcond⟩)
      · exact Or.inl hx
      · exact Or.inr ⟨⟨s, hs, rfl⟩, by simpa [adjustSentence, add_comm] using hcond⟩

/-- C6: a job whose translation stage returns empty content skips the
burn stage, emits `progress 100`, and terminates `skipped` with the
empty-bilingual-subtitles detail; and a job whose audio artifact is
smaller than 1000 bytes gets an empty SRT from the transcription stage,
after which the translate stage returns `""` regardless of the provider
(so no provider is invoked). -/
theorem empty_subtitle_skip (translated : String) (burnOk : Bool)
    (provider : List SubEntry → List SubEntry) (audioSizeBytes : Nat)
    (transcribedSrt : String)
    (hempty : translated = "" ∨ pyStrip translated = "")
    (hsmall : audioSizeBytes < 1000) :
    processTail translated burnOk =
      ([.status "Empty bilingual subtitles, skipping video synthesis",
        .progress 100], .skipped "empty_subtitles", false) ∧
    generateSubtitles audioSizeBytes transcribedSrt = "" ∧
    translateSubtitlesWith provider
      (pyLines (generateSubtitles audioSizeBytes transcribedSrt)) = some "" := by
  have hgen : generateSubtitles audioSizeBytes transcribedSrt = "" := by
    simp [generateSubtitles, hsmall]
  refine ⟨?_, hgen, ?_⟩
  · rcases hempty with h | h
    · simp [processTail, h]
    · simp [processTail, h]
  · rw [hgen]
    simp [translateSubtitlesWith, pyLines, pyStrip, stripList, trimEndList]

/-- C6 witness: the skip behaviour at `translated = ""` and a 500-byte
audio artifact, with the identity provider. -/
theorem empty_subtitle_skip_witness :
    processTail "" true =
      ([.status "Empty bilingual subtitles, skipping video synthesis",
        .progress 100], .skipped "empty_subtitles", false) ∧
    generateSubtitles 500 "1\n00:00:01,000 --> 00:00:02,000\nHello\n\n" = "" ∧
    translateSubtitlesWith (fun es => es)
      (pyLines (generateSubtitles 500 "1\n00:00:01,000 --> 00:00:02,000\nHello\n\n")) =
      some "" :=
  empty_subtitle_skip "" true (fun es => es) 500 _ (Or.inl rfl) (by norm_num)

/-- Helper: `corruptModelFile` fails validation. -/
theorem validateModelFile_corrupt : validateModelFile (some corruptModelFile) = false := by
  norm_num [validateModelFile, minModelSize, maxModelSize, corruptModelFile]
  decide

/-- Helper: when no cached model validates and the single download
produces a file failing validation, the acquisition raises after exactly
one download attempt and leaves no user file on disk. -/
theorem getWhisperModelPath_download_invalid (env : ModelEnv) (f : ModelFile)
    (huser : validateModelFile env.userModel = false)
    (happ : env.isBundled = true ∨ validateModelFile env.appModel = false)
    (hdl : env.download = some f)
    (hbad : validateModelFile (some f) = false) :
    getWhisperModelPath env =
      { result := .error "Downloaded model file failed validation",
        downloadAttempts := 1, userFileOnDisk := none } := by
  unfold getWhisperModelPath
  rw [huser, hdl]
  rcases happ with h | h
  · simp [h, hbad]
  · simp [h, hbad]

/-- C9 counterexample: when the freshly downloaded model file fails
validation, `get_whisper_model_path` reports failure after a single
download attempt — the download is not retried (the claim's second
attempt never happens), though the corrupted file is removed. -/
theorem model_download_no_retry_counterexample :
    (getWhisperModelPath corruptDownloadEnv).downloadAttempts = 1 ∧
    (getWhisperModelPath corruptDownloadEnv).result =
      Except.error "Downloaded model file failed validation" ∧
    (getWhisperModelPath corruptDownloadEnv).userFileOnDisk = none := by
  have h := getWhisperModelPath_download_invalid corruptDownloadEnv corruptModelFile
    rfl (Or.inr rfl) rfl validateModelFile_corrupt
  rw [h]
  exact ⟨rfl, rfl, rfl⟩

/-- C9 (amended): a freshly downloaded model file failing validation
(size outside the 1.4–2.0 GB band, missing GGML magic, or unreadable
tail) is removed and the acquisition fails immediately with exactly one
download attempt — no retry happens inside the call. -/
theorem model_download_validation_failure (env : ModelEnv) (f : ModelFile)
    (huser : validateModelFile env.userModel = false)
    (happ : env.isBundled = true ∨ validateModelFile env.appModel = false)
    (hdl : env.download = some f)
    (hbad : validateModelFile (some f) = false) :
    getWhisperModelPath env =
      { result := .error "Downloaded model file failed validation",
        downloadAttempts := 1, userFileOnDisk := none } ∧
    (validateModelFile (some f) = true ↔
      (minModelSize ≤ (f.sizeBytes : ℚ) ∧ (f.sizeBytes : ℚ) ≤ maxModelSize ∧
        (pyStartsWith f.header "ggml" || pyStartsWith f.header "GGML") = true ∧
        f.tailReadable = true)) := by
  constructor
  · exact getWhisperModelPath_download_invalid env f huser happ hdl hbad
  · rw [validateModelFile]
    constructor
    · intro h
      by_cases h1 : (f.sizeBytes : ℚ) < minModelSize
      · simp [h1] at h
      · by_cases h2 : maxModelSize < (f.sizeBytes : ℚ)
        · simp [h1, h2] at h
        · by_cases h3 : (pyStartsWith f.header "ggml" || pyStartsWith f.header "GGML") = true
          · by_cases h4 : f.tailReadable = true
            · exact ⟨le_of_not_lt h1, le_of_not_lt h2, h3, h4⟩
            · simp [h1, h2, h3, h4] at h
          · simp [h1, h2, h3] at h
    · rintro ⟨h1, h2, h3, h4⟩
      simp [not_lt.mpr h1, not_lt.mpr h2, h3, h4]

/-- C9 amended witness: the amended behaviour at the concrete corrupted
environment. -/
theorem model_download_validation_failure_witness :
    getWhisperModelPath corruptDownloadEnv =
      { result := .error "Downloaded model file failed validation",
        downloadAttempts := 1, userFileOnDisk := none } ∧
    (validateModelFile (some corruptModelFile) = true ↔
      (minModelSize ≤ (corruptModelFile.sizeBytes : ℚ) ∧
        (corruptModelFile.sizeBytes : ℚ) ≤ maxModelSize ∧
        (pyStartsWith corruptModelFile.header "ggml" ||
          pyStartsWith corruptModelFile.header "GGML") = true ∧
        corruptModelFile.tailReadable = true)) :=
  model_download_validation_failure corruptDownloadEnv corruptModelFile rfl (Or.inr rfl) rfl
    validateModelFile_corrupt

/-! ### SRT parser lemmas -/

/-- Helper: a line stripping to the empty string resets the state and
flushes a complete cue. -/
theorem parseStep_blank (st : PState) (raw : String) (h : pyStrip raw = "") :
    parseStep st raw =
      some { curId := none, curTs := "", curText := [], mode := .id,
             entries := flushedEntries st } := by
  rw [parseStep]
  simp [h]

/-- Helper: in `id` mode a decimal-number line stores the id and moves
to `timestamp` mode. -/
theorem parseStep_digit (st : PState) (raw : String) (n : Nat)
    (hmode : st.mode = .id) (hstrip : pyStrip raw = natToDec n) :
    parseStep st raw = some { st with curId := some n, mode := .timestamp } := by
  obtain ⟨hdig, hint, _, _, _, hbeq, _⟩ := natToDec_props n
  rw [parseStep]
  simp [hstrip, hbeq, hmode, hdig, hint]

/-- Helper: in `timestamp` mode a non-blank line containing `-->` stores
the stripped timestamp and moves to `text` mode. -/
theorem parseStep_timestamp (st : PState) (raw : String)
    (hmode : st.mode = .timestamp)
    (hne : (pyStrip raw == "") = false)
    (harrow : pyContains (pyStrip raw) "-->" = true) :
    parseStep st raw = some { st with curTs := pyStrip raw, mode := .text } := by
  rw [parseStep]
  simp [hne, hmode, harrow]

/-- Helper: in `text` mode a non-blank line is appended to the cue's
text lines. -/
theorem parseStep_text (st : PState) (raw : String)
    (hmode : st.mode = .text) (hne : (pyStrip raw == "") = false) :
    parseStep st raw = some { st with curText := st.curText ++ [pyStrip raw] } := by
  rw [parseStep]
  simp [hne, hmode]

/-- Helper: appending line lists runs the parser sequentially. -/
theorem parseFold_append (st : PState) (l1 l2 : List String) :
    parseFold st (l1 ++ l2) =
      (parseFold st l1).bind fun st2 => parseFold st2 l2 := by
  rw [parseFold, parseFold, List.foldlM_append]
  rfl

/-- Helper: the parser fold, one line at a time. -/
theorem parseFold_cons (st : PState) (l : String) (rest : List String) :
    parseFold st (l :: rest) = (parseStep st l).bind fun st2 => parseFold st2 rest := by
  rw [parseFold, List.foldlM_cons]
  rfl

/-- Helper: the parser fold on no lines. -/
theorem parseFold_nil (st : PState) : parseFold st [] = some st := rfl

/-- Helper: a terminating blank line never changes the parse result —
the end-of-input flush condition is exactly the blank-line flush
condition. -/
theorem parseSRTLines_append_blank (lines : List String) :
    parseSRTLines (lines ++ [""]) = parseSRTLines lines := by
  rw [parseSRTLines, parseSRTLines, parseFold_append]
  cases h : parseFold initP lines with
  | none => rfl
  | some st =>
    show ((parseFold st [""]).map flushedEntries) = some (flushedEntries st)
    rw [parseFold_cons, parseStep_blank st "" rfl]
    show some (flushedEntries _) = some (flushedEntries st)
    simp [flushedEntries, completeCue]

/-- Helper: every entry flushed out of an invariant-satisfying state is
well-formed. -/
theorem flushedEntries_WF (st : PState) (hinv : stInv st) :
    ∀ e ∈ flushedEntries st, WFEntry e := by
  obtain ⟨hts, htext, hent⟩ := hinv
  intro e he
  rw [flushedEntries] at he
  split at he
  case isTrue hc =>
    rcases List.mem_append.mp he with h1 | h1
    · exact hent e h1
    · rw [List.mem_singleton] at h1
      subst h1
      rw [completeCue, Bool.and_eq_true, Bool.and_eq_true] at hc
      obtain ⟨⟨hid, hts2⟩, htx⟩ := hc
      have htsOK : tsOK st.curTs := by
        rcases hts with h2 | h2
        · exfalso
          rw [h2] at hts2
          simp at hts2
        · exact h2
      refine ⟨htsOK, ?_⟩
      intro c hcm
      have hjoin : (nlJoin st.curText).data =
          List.intercalate ['\n'] (st.curText.map String.data) := rfl
      have hclean : ∀ l ∈ st.curText.map String.data, '\n' ∉ l := by
        intro l hl
        obtain ⟨t, htmem, rfl⟩ := List.mem_map.mp hl
        exact (htext t htmem).2.2
      have hnenil : st.curText.map String.data ≠ [] := by
        intro habs
        rw [List.map_eq_nil_iff] at habs
        rw [habs] at htx
        simp at htx
      rw [hjoin, List.splitOn_intercalate (st.curText.map String.data) '\n' hclean
        hnenil] at hcm
      obtain ⟨t, htmem, rfl⟩ := List.mem_map.mp hcm
      exact ⟨(htext t htmem).1, (htext t htmem).2.1⟩
  case isFalse =>
    exact hent e he

/-- Helper: one parser step preserves the state invariant on
newline-free input lines. -/
theorem parseStep_inv (st st2 : PState) (raw : String)
    (hnl : '\n' ∉ raw.data) (hinv : stInv st)
    (h : parseStep st raw = some st2) : stInv st2 := by
  obtain ⟨hts, htext, hent⟩ := hinv
  rw [parseStep] at h
  by_cases hblank : (pyStrip raw == "") = true
  · simp only [hblank, if_true] at h
    rw [Option.some_inj] at h
    subst h
    exact ⟨Or.inl rfl, by simp, flushedEntries_WF st ⟨hts, htext, hent⟩⟩
  · rw [Bool.not_eq_true] at hblank
    have hlineOK : lineOK (pyStrip raw) := by
      refine ⟨?_, ?_, ?_⟩
      · intro habs
        rw [beq_eq_false_iff_ne] at hblank
        exact hblank (congrArg (fun l => (⟨l⟩ : String)) habs)
      · exact stripList_idem raw.data
      · intro habs
        exact hnl (mem_stripList _ _ habs)
    simp only [hblank, if_false, Bool.false_eq_true] at h
    cases hmode : st.mode with
    | id =>
      rw [hmode] at h
      by_cases hdig : pyStrIsDigit (pyStrip raw) = true
      · rw [if_pos hdig] at h
        cases hint : pyInt? (pyStrip raw) with
        | none =>
          rw [hint] at h
          exact absurd h (by simp)
        | some n =>
          rw [hint, Option.some_inj] at h
          subst h
          exact ⟨hts, htext, hent⟩
      · rw [if_neg hdig, Option.some_inj] at h
        subst h
        exact ⟨hts, htext, hent⟩
    | timestamp =>
      rw [hmode] at h
      by_cases harr : pyContains (pyStrip raw) "-->" = true
      · rw [if_pos harr, Option.some_inj] at h
        subst h
        exact ⟨Or.inr ⟨hlineOK.1, hlineOK.2.1, hlineOK.2.2, harr⟩, htext, hent⟩
      · rw [if_neg harr, Option.some_inj] at h
        subst h
        exact ⟨hts, htext, hent⟩
    | text =>
      rw [hmode, Option.some_inj] at h
      subst h
      refine ⟨hts, ?_, hent⟩
      intro t htm
      rcases List.mem_append.mp htm with h1 | h1
      · exact htext t h1
      · rw [List.mem_singleton] at h1
        subst h1
        exact hlineOK

/-- Helper: the parser fold preserves the invariant. -/
theorem parseFold_inv (lines : List String) :
    ∀ st st2, (∀ l ∈ lines, '\n' ∉ l.data) → stInv st →
      parseFold st lines = some st2 → stInv st2 := by
  induction lines with
  | nil =>
    intro st st2 _ hinv h
    rw [parseFold_nil, Option.some_inj] at h
    subst h
    exact hinv
  | cons l rest ih =>
    intro st st2 hnl hinv h
    rw [parseFold_cons] at h
    cases hstep : parseStep st l with
    | none =>
      rw [hstep] at h
      exact absurd h (by simp)
    | some stm =>
      rw [hstep, Option.some_bind] at h
      exact ih stm st2 (fun l2 hl2 => hnl l2 (by simp [hl2]))
        (parseStep_inv st stm l (hnl l (by simp)) hinv hstep) h

/-- Helper: entries parsed from any SRT text are well-formed. -/
theorem parseSRT_WF (s : String) (es : List SubEntry)
    (h : parseSRTLines (pyLines s) = some es) : ∀ e ∈ es, WFEntry e := by
  rw [parseSRTLines] at h
  cases hf : parseFold initP (pyLines s) with
  | none =>
    rw [hf] at h
    exact absurd h (by simp)
  | some st =>
    rw [hf] at h
    simp only [Option.map] at h
    rw [Option.some_inj] at h
    have hnl : ∀ l ∈ pyLines s, '\n' ∉ l.data := by
      intro l hl
      rw [pyLines] at hl
      obtain ⟨c, hcm, rfl⟩ := List.mem_map.mp hl
      exact splitOn_parts_no_sep s.data '\n' c hcm
    have hinv := parseFold_inv (pyLines s) initP st hnl
      ⟨Or.inl rfl, by simp [initP], by simp [initP]⟩ hf
    rw [← h]
    exact flushedEntries_WF st hinv

/-! ### SRT emission lemmas -/

/-- Helper: the character data of one emitted block. -/
theorem emitEntry_data (e : SubEntry) :
    (emitEntry e).data =
      (natToDec e.id).data ++ '\n' :: (e.timestamp.data ++ '\n' ::
        (e.text.data ++ ['\n', '\n'])) := by
  show ((natToDec e.id ++ "\n" ++ e.timestamp ++ "\n" ++ e.text ++ "\n\n")).data = _
  simp [String.data_append]

/-- Helper: the emitted file is the concatenation of the emitted
blocks. -/
theorem emitEntries_data (es : List SubEntry) :
    (emitEntries es).data = (es.map fun e => (emitEntry e).data).flatten := by
  suffices h : ∀ acc : String,
      (es.foldl (fun a e => a ++ emitEntry e) acc).data =
        acc.data ++ (es.map fun e => (emitEntry e).data).flatten by
    simpa using h ""
  induction es with
  | nil => intro acc; simp
  | cons e rest ih =>
    intro acc
    rw [List.foldl_cons, ih]
    simp [String.data_append]

/-- Helper: `modifyHead` acts on the first block of a concatenation. -/
theorem modifyHead_append (f : List Char → List Char) (l1 l2 : List (List Char))
    (h : l1 ≠ []) : (l1 ++ l2).modifyHead f = l1.modifyHead f ++ l2 := by
  cases l1 with
  | nil => exact absurd rfl h
  | cons a as => simp

/-- Helper: a separator-free list splits to itself. -/
theorem splitOn_clean (C : List Char) (x : Char) (h : x ∉ C) :
    C.splitOn x = [C] := by
  rw [List.splitOn]
  refine List.splitOnP_eq_single _ _ ?_
  intro y hy
  simp
  intro he
  exact absurd (he ▸ hy) h

/-- Helper: splitting distributes over an explicit separator
occurrence. -/
theorem splitOn_sep_append (C : List Char) (x : Char) :
    ∀ r : List Char, (C ++ x :: r).splitOn x = C.splitOn x ++ r.splitOn x := by
  induction C with
  | nil =>
    intro r
    simp only [List.nil_append, List.splitOn, List.splitOnP_cons]
    simp
  | cons c C ih =>
    intro r
    have hxx := ih r
    simp only [List.splitOn] at hxx
    simp only [List.cons_append, List.splitOn, List.splitOnP_cons]
    by_cases hcx : (c == x) = true
    · rw [if_pos hcx, if_pos hcx, hxx]
      simp
    · rw [if_neg hcx, if_neg hcx, hxx,
        modifyHead_append _ _ _ (List.splitOnP_ne_nil _ _)]

/-- Helper: the emitted text splits back into exactly the lines of each
block, plus the file-final empty line. -/
theorem splitOn_emit_data (es : List SubEntry) (hwf : ∀ e ∈ es, WFEntry e) :
    ((es.map fun e => (emitEntry e).data).flatten).splitOn '\n' =
      (es.map fun e => [(natToDec e.id).data, e.timestamp.data] ++
        e.text.data.splitOn '\n' ++ [[]]).flatten ++ [[]] := by
  induction es with
  | nil => simp [List.splitOn_nil]
  | cons e rest ih =>
    have hwfe := hwf e (by simp)
    have hid : '\n' ∉ (natToDec e.id).data := (natToDec_props e.id).2.2.2.2.1
    have hts : '\n' ∉ e.timestamp.data := hwfe.1.2.2.1
    rw [List.map_cons, List.flatten_cons, emitEntry_data]
    have hshape : ((natToDec e.id).data ++ '\n' :: (e.timestamp.data ++ '\n' ::
        (e.text.data ++ ['\n', '\n']))) ++
          (rest.map fun e2 => (emitEntry e2).data).flatten =
        (natToDec e.id).data ++ '\n' :: (e.timestamp.data ++ '\n' ::
          (e.text.data ++ '\n' ::
            ([] ++ '\n' :: (rest.map fun e2 => (emitEntry e2).data).flatten))) := by
      simp
    rw [hshape, splitOn_sep_append _ _ _, splitOn_sep_append _ _ _,
      splitOn_sep_append _ _ _, splitOn_sep_append _ _ _,
      splitOn_clean _ _ hid, splitOn_clean _ _ hts,
      ih (fun e2 he2 => hwf e2 (by simp [he2]))]
    simp [List.splitOn_nil]

/-- Helper: the lines the re-parse sees are the blocks' lines plus one
trailing empty line. -/
theorem pyLines_emit (es : List SubEntry) (hwf : ∀ e ∈ es, WFEntry e) :
    pyLines (emitEntries es) = (es.map lineStrs).flatten ++ [""] := by
  rw [pyLines, emitEntries_data, splitOn_emit_data es hwf]
  rw [List.map_append, List.map_flatten, List.map_map]
  congr 1
  refine congrArg List.flatten ?_
  apply List.map_congr_left
  intro e _
  rw [lineStrs]
  simp

/-- Helper: consecutive stripped-stable text lines accumulate in order. -/
theorem parseFold_textLines (comps : List (List Char)) :
    ∀ st : PState, st.mode = .text → (∀ c ∈ comps, c ≠ [] ∧ stripList c = c) →
      parseFold st (comps.map fun l => (⟨l⟩ : String)) =
        some { st with curText := st.curText ++ comps.map fun l => (⟨l⟩ : String) } := by
  induction comps with
  | nil =>
    intro st _ _
    rw [List.map_nil, parseFold_nil]
    cases st
    simp
  | cons c cs ih =>
    intro st hmode hcl
    obtain ⟨hcne, hcstable⟩ := hcl c (by simp)
    have hstrip : pyStrip (⟨c⟩ : String) = (⟨c⟩ : String) := pyStrip_eq_self _ hcstable
    have hbeq : (pyStrip (⟨c⟩ : String) == "") = false := by
      rw [hstrip, beq_eq_false_iff_ne]
      intro habs
      exact hcne (congrArg String.data habs)
    rw [List.map_cons, parseFold_cons,
      parseStep_text st _ hmode hbeq, Option.some_bind, hstrip,
      ih _ (by rw [hmode]) (fun d hd => hcl d (by simp [hd]))]
    simp

/-- Helper: parsing the emitted lines of well-formed entries from a
fresh state appends exactly those entries. -/
theorem parseFold_lineStrs (es : List SubEntry) :
    ∀ E : List SubEntry, (∀ e ∈ es, WFEntry e) →
      parseFold ⟨none, "", [], .id, E⟩ ((es.map lineStrs).flatten) =
        some ⟨none, "", [], .id, E ++ es⟩ := by
  induction es with
  | nil =>
    intro E _
    simp [parseFold_nil]
  | cons e rest ih =>
    intro E hwf
    have hwfe := hwf e (by simp)
    rw [List.map_cons, List.flatten_cons, parseFold_append]
    have hcompsne : e.text.data.splitOn '\n' ≠ [] := by
      rw [List.splitOn]
      exact List.splitOnP_ne_nil _ _
    have hts := hwfe.1
    have hflush : flushedEntries ⟨some e.id, e.timestamp,
        [] ++ (e.text.data.splitOn '\n').map (fun l => (⟨l⟩ : String)), .text, E⟩ =
        E ++ [e] := by
      rw [flushedEntries]
      have hb1 : (e.timestamp == "") = false := by
        rw [beq_eq_false_iff_ne]
        intro habs
        exact hts.1 (congrArg String.data habs)
      have hb2 : ((e.text.data.splitOn '\n').map
          (fun l => (⟨l⟩ : String))).isEmpty = false := by
        cases hsp : e.text.data.splitOn '\n' with
        | nil => exact absurd hsp hcompsne
        | cons a as => rfl
      have hcc : completeCue ⟨some e.id, e.timestamp,
          [] ++ (e.text.data.splitOn '\n').map (fun l => (⟨l⟩ : String)), .text, E⟩ =
          true := by
        rw [completeCue]
        simp only [List.nil_append] at hb2
        simp [hb1, hb2]
      rw [if_pos hcc]
      have hjoin : nlJoin ([] ++ (e.text.data.splitOn '\n').map
          (fun l => (⟨l⟩ : String))) = e.text := by
        rw [List.nil_append, nlJoin]
        have hmm : ((e.text.data.splitOn '\n').map
            (fun l => (⟨l⟩ : String))).map String.data = e.text.data.splitOn '\n' := by
          rw [List.map_map]
          exact List.map_id _
        rw [hmm, List.intercalate_splitOn]
      show E ++ [SubEntry.mk e.id e.timestamp (nlJoin ([] ++
        (e.text.data.splitOn '\n').map (fun l => (⟨l⟩ : String))))] = E ++ [e]
      rw [hjoin]
    have hblock : parseFold ⟨none, "", [], .id, E⟩ (lineStrs e) =
        some ⟨none, "", [], .id, E ++ [e]⟩ := by
      rw [lineStrs]
      have h1 : pyStrip (natToDec e.id) = natToDec e.id :=
        (natToDec_props e.id).2.2.2.2.2.2
      have htsstrip : pyStrip e.timestamp = e.timestamp := pyStrip_eq_self _ hts.2.1
      have htsbeq : (pyStrip e.timestamp == "") = false := by
        rw [htsstrip, beq_eq_false_iff_ne]
        intro habs
        exact hts.1 (congrArg String.data habs)
      simp only [List.append_assoc, List.cons_append, List.nil_append]
      rw [parseFold_cons,
        parseStep_digit _ _ e.id rfl h1, Option.some_bind,
        parseFold_cons,
        parseStep_timestamp _ _ rfl htsbeq (by rw [htsstrip]; exact hts.2.2.2),
        Option.some_bind, htsstrip, parseFold_append,
        parseFold_textLines (e.text.data.splitOn '\n') _ rfl hwfe.2,
        Option.some_bind, parseFold_cons, parseStep_blank _ "" rfl,
        Option.some_bind, parseFold_nil]
      show some (⟨none, "", [], .id, flushedEntries ⟨some e.id, e.timestamp,
        [] ++ (e.text.data.splitOn '\n').map (fun l => (⟨l⟩ : String)), .text,
        E⟩⟩ : PState) = _
      rw [hflush]
    rw [hblock, Option.some_bind, ih (E ++ [e])
      (fun e2 he2 => hwf e2 (by simp [he2]))]
    simp

/-- Helper: the pad/truncate step always returns exactly one translated
text per input entry. -/
theorem padTruncate_length (parts : List String) (entries : List SubEntry) :
    (padTruncate parts entries).length = entries.length := by
  simp [padTruncate]
  omega

/-- Helper: with fewer parts than entries, padding appends the original
texts of the uncovered entries, in order. -/
theorem padTruncate_pad (parts : List String) (entries : List SubEntry)
    (h : parts.length ≤ entries.length) :
    padTruncate parts entries = parts ++ (entries.drop parts.length).map SubEntry.text := by
  have hlen : (parts ++ (entries.map SubEntry.text).drop parts.length).length =
      entries.length := by
    simp
    omega
  rw [padTruncate, List.take_of_length_le (le_of_eq hlen), List.map_drop]

/-- Helper: with at least as many parts as entries, the excess parts are
dropped. -/
theorem padTruncate_trunc (parts : List String) (entries : List SubEntry)
    (h : entries.length ≤ parts.length) :
    padTruncate parts entries = parts.take entries.length := by
  have hnil : (entries.map SubEntry.text).drop parts.length = [] := by
    apply List.drop_eq_nil_of_le
    simp
    omega
  rw [padTruncate, hnil, List.append_nil]

/-- C1: `_translate_openai_batch` on a non-empty batch always returns as
many cues as it was given; a single-cue batch takes the whole (stripped)
response as the one translation; a multi-cue batch splits on the first
applicable separator in the order `"\n%%\n"`, `"%%"`, line-splitting;
missing positions are padded with the corresponding original texts and
excess parts are truncated. -/
theorem openai_batch_response_parsing (entries : List SubEntry) (content : String)
    (hne : entries ≠ []) :
    (translateOpenaiBatch entries content).length = entries.length ∧
    (entries.length = 1 → parsedTexts entries (pyStrip content) = [pyStrip content]) ∧
    (1 < entries.length → pyContains (pyStrip content) "\n%%\n" = true →
      parsedTexts entries (pyStrip content) = pySplit (pyStrip content) "\n%%\n") ∧
    (1 < entries.length → pyContains (pyStrip content) "\n%%\n" = false →
      pyContains (pyStrip content) "%%" = true →
      parsedTexts entries (pyStrip content) = pySplit (pyStrip content) "%%") ∧
    (1 < entries.length → pyContains (pyStrip content) "\n%%\n" = false →
      pyContains (pyStrip content) "%%" = false →
      entries.length ≤ (pyLines (pyStrip content)).length →
      parsedTexts entries (pyStrip content) =
        (pyLines (pyStrip content)).take entries.length) ∧
    (1 < entries.length → pyContains (pyStrip content) "\n%%\n" = false →
      pyContains (pyStrip content) "%%" = false →
      (pyLines (pyStrip content)).length < entries.length →
      parsedTexts entries (pyStrip content) = [pyStrip content]) ∧
    ((parsedTexts entries (pyStrip content)).length ≤ entries.length →
      padTruncate (parsedTexts entries (pyStrip content)) entries =
        parsedTexts entries (pyStrip content) ++
          (entries.drop (parsedTexts entries (pyStrip content)).length).map
            SubEntry.text) ∧
    (entries.length ≤ (parsedTexts entries (pyStrip content)).length →
      padTruncate (parsedTexts entries (pyStrip content)) entries =
        (parsedTexts entries (pyStrip content)).take entries.length) := by
  refine ⟨?_, ?_, ?_, ?_, ?_, ?_,
    fun h => padTruncate_pad _ entries h, fun h => padTruncate_trunc _ entries h⟩
  · simp [translateOpenaiBatch, padTruncate_length]
  · intro h1
    simp [parsedTexts, h1]
  · intro hgt hsep
    have hne1 : (entries.length == 1) = false := by
      simp
      omega
    simp [parsedTexts, hne1, hsep]
  · intro hgt hsep1 hsep2
    have hne1 : (entries.length == 1) = false := by
      simp
      omega
    simp [parsedTexts, hne1, hsep1, hsep2]
  · intro hgt hsep1 hsep2 hlines
    have hne1 : (entries.length == 1) = false := by
      simp
      omega
    simp [parsedTexts, hne1, hsep1, hsep2, hlines]
  · intro hgt hsep1 hsep2 hlines
    have hne1 : (entries.length == 1) = false := by
      simp
      omega
    have hnot : ¬ entries.length ≤ (pyLines (pyStrip content)).length := by omega
    simp [parsedTexts, hne1, hsep1, hsep2, hnot]

/-- C1 witness: the theorem applied to the spec's two-cue scenarios — a
separator-bearing response, and a one-part response that gets padded
with the second cue's original text. -/
theorem openai_batch_response_parsing_witness :
    (translateOpenaiBatch [demoCue1, demoCue2]
      ("你好" ++ "\n%%\n" ++ "世界")).length = [demoCue1, demoCue2].length ∧
    ((parsedTexts [demoCue1, demoCue2] (pyStrip "仅一行")).length ≤
        [demoCue1, demoCue2].length →
      padTruncate (parsedTexts [demoCue1, demoCue2] (pyStrip "仅一行"))
          [demoCue1, demoCue2] =
        parsedTexts [demoCue1, demoCue2] (pyStrip "仅一行") ++
          ([demoCue1, demoCue2].drop
            (parsedTexts [demoCue1, demoCue2] (pyStrip "仅一行")).length).map
            SubEntry.text) ∧
    (parsedTexts [demoCue1, demoCue2] (pyStrip "仅一行")).length ≤
      [demoCue1, demoCue2].length ∧
    translateOpenaiBatch [demoCue1, demoCue2] "仅一行" =
      [{ id := 1, timestamp := "00:00:01,000 --> 00:00:02,000",
         text := "Hello" ++ "\n" ++ "仅一行" },
       { id := 2, timestamp := "00:00:03,000 --> 00:00:04,000",
         text := "World" ++ "\n" ++ "World" }] :=
  ⟨(openai_batch_response_parsing [demoCue1, demoCue2] _ (by decide)).1,
   (openai_batch_response_parsing [demoCue1, demoCue2]
     "仅一行" (by decide)).2.2.2.2.2.2.1,
   by decide, by decide⟩

/-- Helper: the batch-building fold keeps the concatenation of finished
batches and the current batch equal to the processed prefix. -/
theorem foldBB_flatten (maxChars maxEntries : Nat) (es : List SubEntry) :
    ∀ st : List (List SubEntry) × List SubEntry × Nat,
      (es.foldl (batchStep maxChars maxEntries) st).1.flatten ++
        (es.foldl (batchStep maxChars maxEntries) st).2.1 =
      st.1.flatten ++ st.2.1 ++ es := by
  induction es with
  | nil => intro st; simp
  | cons e es ih =>
    intro st
    rw [List.foldl_cons, ih]
    simp only [batchStep]
    split
    · simp
    · simp

/-- Helper: the batch-building fold preserves `bbInv` when the entry
budget is at least 1. -/
theorem foldBB_inv (maxChars maxEntries : Nat) (hE : 1 ≤ maxEntries)
    (es : List SubEntry) :
    ∀ st : List (List SubEntry) × List SubEntry × Nat,
      bbInv maxChars maxEntries st →
      bbInv maxChars maxEntries (es.foldl (batchStep maxChars maxEntries) st) := by
  induction es with
  | nil => intro st h; exact h
  | cons e es ih =>
    intro st h
    obtain ⟨hb, hchars, hlen, hcost⟩ := h
    rw [List.foldl_cons]
    apply ih
    simp only [batchStep]
    split
    case isTrue hcond =>
      rw [Bool.and_eq_true] at hcond
      obtain ⟨hor, hne⟩ := hcond
      have hcur : st.2.1 ≠ [] := by
        simpa using hne
      refine ⟨?_, by simp [charsOf], by simpa using hE, ?_⟩
      · intro b hbmem
        rcases List.mem_append.mp hbmem with h1 | h2
        · exact hb b h1
        · rw [List.mem_singleton] at h2
          subst h2
          exact ⟨hcur, hlen, hcost⟩
      · intro habs
        simp at habs
    case isFalse hcond =>
      by_cases hemp : st.2.1 = []
      · refine ⟨hb, ?_, ?_, ?_⟩
        · simp [charsOf, hemp, hchars]
        · simpa [hemp] using hE
        · intro habs
          simp [hemp] at habs
      · have hne : (!st.2.1.isEmpty) = true := by
          simpa using hemp
        have hor : (decide (maxEntries ≤ st.2.1.length) ||
            decide (maxChars < st.2.2 + e.text.length)) = false := by
          cases hd : (decide (maxEntries ≤ st.2.1.length) ||
              decide (maxChars < st.2.2 + e.text.length)) with
          | false => rfl
          | true => exact absurd (by rw [hd, hne]; rfl) hcond
        obtain ⟨h1, h2⟩ := Bool.or_eq_false_iff.mp hor
        have hlt : st.2.1.length < maxEntries := by
          simpa using of_decide_eq_false h1
        have hle : st.2.2 + e.text.length ≤ maxChars := by
          simpa using of_decide_eq_false h2
        refine ⟨hb, by simp [charsOf, hchars], by simp; omega, ?_⟩
        · intro _
          show charsOf (st.2.1 ++ [e]) ≤ maxChars
          have hsum : charsOf (st.2.1 ++ [e]) = charsOf st.2.1 + e.text.length := by
            simp [charsOf]
          omega

/-- Helper: structure of the batches built by
`_translate_openai_multiple_batches`: they concatenate back to the
input, none is empty, each respects the entry budget, and each respects
the character budget except a lone cue whose own text exceeds it. -/
theorem buildBatches_props (entries : List SubEntry) (maxChars maxEntries : Nat)
    (hE : 1 ≤ maxEntries) :
    (buildBatches entries maxChars maxEntries).flatten = entries ∧
    ∀ b ∈ buildBatches entries maxChars maxEntries,
      goodBatch maxChars maxEntries b := by
  have hflat := foldBB_flatten maxChars maxEntries entries ([], [], 0)
  have hinv := foldBB_inv maxChars maxEntries hE entries ([], [], 0)
    ⟨by simp, by simp [charsOf], by simp, by simp⟩
  obtain ⟨hb, hchars, hlen, hcost⟩ := hinv
  simp only [List.flatten_nil, List.nil_append] at hflat
  rw [buildBatches]
  split
  case isTrue hfin =>
    have : (entries.foldl (batchStep maxChars maxEntries) ([], [], 0)).2.1 = [] := by
      simpa using hfin
    rw [this, List.append_nil] at hflat
    exact ⟨hflat, hb⟩
  case isFalse hfin =>
    constructor
    · simpa using hflat
    · intro b hbmem
      rcases List.mem_append.mp hbmem with h1 | h2
      · exact hb b h1
      · rw [List.mem_singleton] at h2
        subst h2
        exact ⟨by simpa using hfin, hlen, hcost⟩

/-- C7 counterexample: with budgets `max_chars = 5`, `max_entries = 10`
and one 6-character cue, the dispatcher takes the multiple-batch path
and produces a batch whose character total exceeds `max_chars` — the
claimed per-batch character bound fails. -/
theorem openai_dispatch_budget_counterexample :
    ¬(charsOf [oversizedCue] ≤ 5 ∧ [oversizedCue].length ≤ 10) ∧
    buildBatches [oversizedCue] 5 10 = [[oversizedCue]] ∧
    5 < charsOf [oversizedCue] := by
  decide

/-- C7 (amended): when the whole list fits both budgets it is sent as
one request; otherwise it is split, preserving input order, into
consecutive non-empty batches each holding at most `max_entries_per_batch`
entries (for a positive entry budget) and at most `max_chars_per_batch`
total characters unless the batch is a single cue whose own text exceeds
the character budget. -/
theorem openai_dispatch_budgets (entries : List SubEntry) (maxChars maxEntries : Nat)
    (resp : Nat → Option String) (hE : 1 ≤ maxEntries) :
    (∀ c, charsOf entries ≤ maxChars → entries.length ≤ maxEntries →
      resp 0 = some c →
      batchTranslateWithOpenai entries maxChars maxEntries resp =
        some (translateOpenaiBatch entries c, [0])) ∧
    (¬(charsOf entries ≤ maxChars ∧ entries.length ≤ maxEntries) →
      batchTranslateWithOpenai entries maxChars maxEntries resp =
        some (translateOpenaiMultipleBatches entries maxChars maxEntries resp)) ∧
    (buildBatches entries maxChars maxEntries).flatten = entries ∧
    (∀ b ∈ buildBatches entries maxChars maxEntries,
      b ≠ [] ∧ b.length ≤ maxEntries ∧ (2 ≤ b.length → charsOf b ≤ maxChars)) := by
  obtain ⟨hf, hg⟩ := buildBatches_props entries maxChars maxEntries hE
  refine ⟨?_, ?_, hf, fun b hb => hg b hb⟩
  · intro c h1 h2 hr
    simp [batchTranslateWithOpenai, h1, h2, hr]
  · intro hno
    simp [batchTranslateWithOpenai, hno]

/-- C7 witness: both dispatch paths at concrete inputs — a small batch
sent as one request, and a 10-character pair split in order into two
batches under budgets 5/10. -/
theorem openai_dispatch_budgets_witness :
    batchTranslateWithOpenai [demoCue1] 3600 10 (fun _ => some "ok") =
      some (translateOpenaiBatch [demoCue1] "ok", [0]) ∧
    (buildBatches [demoCue1, demoCue2] 5 10).flatten = [demoCue1, demoCue2] ∧
    batchTranslateWithOpenai [demoCue1, demoCue2] 5 10 (fun _ => some "ok") =
      some (translateOpenaiMultipleBatches [demoCue1, demoCue2] 5 10
        (fun _ => some "ok")) :=
  ⟨(openai_dispatch_budgets [demoCue1] 3600 10 (fun _ => some "ok")
      (by norm_num)).1 "ok" (by decide) (by decide) rfl,
   (openai_dispatch_budgets [demoCue1, demoCue2] 5 10 (fun _ => some "ok")
      (by norm_num)).2.2.1,
   (openai_dispatch_budgets [demoCue1, demoCue2] 5 10 (fun _ => some "ok")
      (by norm_num)).2.1 (by decide)⟩

/-- Helper: rebuilding each entry field by field is the identity. -/
theorem subEntry_rebuild_map (b : List SubEntry) :
    (b.map fun e => ({ id := e.id, timestamp := e.timestamp, text := e.text } :
      SubEntry)) = b := by
  have : (fun e : SubEntry =>
      ({ id := e.id, timestamp := e.timestamp, text := e.text } : SubEntry)) = id :=
    funext fun e => rfl
  rw [this, List.map_id]

/-- Helper: the per-batch translation loop in flatMap form, with its
attempt trace. -/
theorem multiBatch_foldl (resp : Nat → Option String)
    (l : List (Nat × List SubEntry)) :
    ∀ (acc : List SubEntry) (tr : List Nat),
      l.foldl (fun acc2 p => (acc2.1 ++ batchOutcome resp p.1 p.2, acc2.2 ++ [p.1]))
          (acc, tr) =
        (acc ++ (l.map fun p => batchOutcome resp p.1 p.2).flatten,
         tr ++ l.map Prod.fst) := by
  induction l with
  | nil => intro acc tr; simp
  | cons p l ih =>
    intro acc tr
    rw [List.foldl_cons, ih]
    simp

/-- Helper: closed form of `_translate_openai_multiple_batches`. -/
theorem translateOpenaiMultipleBatches_eq (entries : List SubEntry)
    (maxChars maxEntries : Nat) (resp : Nat → Option String) :
    translateOpenaiMultipleBatches entries maxChars maxEntries resp =
      (((buildBatches entries maxChars maxEntries).enum.map
          fun p => batchOutcome resp p.1 p.2).flatten,
       List.range (buildBatches entries maxChars maxEntries).length) := by
  simp only [translateOpenaiMultipleBatches]
  rw [multiBatch_foldl]
  simp [List.enum_map_fst]

/-- C3 counterexample: a batch that fits both budgets is dispatched as a
single request, and a failing response then aborts the whole translation
pass (the exception propagates) — the cues do not fall back to their
original text and the pass does not continue. -/
theorem openai_single_batch_failure_aborts :
    batchTranslateWithOpenai [demoCue1] 3600 10 (fun _ => none) = none := by
  decide

/-- C3 (amended): in the multiple-batch path every batch is attempted
exactly once (the attempt trace is `range` of the batch count, in
order); a batch whose request fails contributes its cues verbatim —
original id, timestamp and text, no translation appended; the other
batches' results depend only on their own responses; and in the
single-request path a failure aborts the pass instead. -/
theorem openai_batch_failure_isolation (entries : List SubEntry)
    (maxChars maxEntries : Nat) (resp resp2 : Nat → Option String) (i : Nat)
    (hfail : resp i = none) (hfail2 : resp2 i = none)
    (hagree : ∀ j, j ≠ i → resp j = resp2 j) :
    (translateOpenaiMultipleBatches entries maxChars maxEntries resp).2 =
      List.range (buildBatches entries maxChars maxEntries).length ∧
    (translateOpenaiMultipleBatches entries maxChars maxEntries resp).1 =
      ((buildBatches entries maxChars maxEntries).enum.map fun p =>
        if p.1 = i then p.2 else batchOutcome resp p.1 p.2).flatten ∧
    translateOpenaiMultipleBatches entries maxChars maxEntries resp =
      translateOpenaiMultipleBatches entries maxChars maxEntries resp2 ∧
    (resp 0 = none → charsOf entries ≤ maxChars → entries.length ≤ maxEntries →
      batchTranslateWithOpenai entries maxChars maxEntries resp = none) := by
  refine ⟨?_, ?_, ?_, ?_⟩
  · rw [translateOpenaiMultipleBatches_eq]
  · rw [translateOpenaiMultipleBatches_eq]
    show ((buildBatches entries maxChars maxEntries).enum.map
      fun p => batchOutcome resp p.1 p.2).flatten = _
    congr 1
    apply List.map_congr_left
    intro p _
    by_cases hpi : p.1 = i
    · rw [if_pos hpi, hpi]
      simp [batchOutcome, hfail, subEntry_rebuild_map]
    · rw [if_neg hpi]
  · rw [translateOpenaiMultipleBatches_eq, translateOpenaiMultipleBatches_eq]
    congr 2
    apply List.map_congr_left
    intro p _
    by_cases hpi : p.1 = i
    · rw [hpi]
      simp [batchOutcome, hfail, hfail2]
    · simp [batchOutcome, hagree p.1 hpi]
  · intro h0 h1 h2
    simp [batchTranslateWithOpenai, h1, h2, h0]

/-- C3 witness: two single-cue batches under budgets 5/10 where the
request for batch 0 fails — one attempt per batch and the failed batch
kept verbatim. -/
theorem openai_batch_failure_isolation_witness :
    (translateOpenaiMultipleBatches [demoCue1, demoCue2] 5 10 respFail0).2 =
      List.range (buildBatches [demoCue1, demoCue2] 5 10).length ∧
    (translateOpenaiMultipleBatches [demoCue1, demoCue2] 5 10 respFail0).1 =
      ((buildBatches [demoCue1, demoCue2] 5 10).enum.map fun p =>
        if p.1 = 0 then p.2 else batchOutcome respFail0 p.1 p.2).flatten :=
  ⟨(openai_batch_failure_isolation [demoCue1, demoCue2] 5 10 respFail0 respFail0 0
      rfl rfl (fun _ _ => rfl)).1,
   (openai_batch_failure_isolation [demoCue1, demoCue2] 5 10 respFail0 respFail0 0
      rfl rfl (fun _ _ => rfl)).2.1⟩

/-- Helper: the start loop moves queue heads into the running set
without changing their relative order, never grows `running` beyond
`max_processes` (or beyond its initial size if that already exceeds the
bound), and touches neither `nextId` nor `maxProcesses`. -/
theorem tryStartLoop_props (n : Nat) :
    ∀ s : SchedState,
      (tryStartLoop n s).started ++ (tryStartLoop n s).pending =
        s.started ++ s.pending ∧
      (tryStartLoop n s).nextId = s.nextId ∧
      (tryStartLoop n s).maxProcesses = s.maxProcesses ∧
      (tryStartLoop n s).running.length ≤ max s.running.length s.maxProcesses := by
  induction n with
  | zero => intro s; simp [tryStartLoop]
  | succ n ih =>
    intro s
    simp only [tryStartLoop]
    split
    · simp
    case h_2 t rest hp =>
      split
      case isTrue hlt =>
        obtain ⟨ih1, ih2, ih3, ih4⟩ :=
          ih ⟨rest, s.running ++ [t], s.started ++ [t], s.nextId, s.maxProcesses⟩
        refine ⟨?_, ih2, ih3, ?_⟩
        · rw [ih1]
          simp [hp]
        · refine le_trans ih4 ?_
          simp
          omega
      case isFalse hlt =>
        exact ⟨rfl, rfl, rfl, le_max_left _ _⟩

/-- Helper: `tryStartLoop_props` at the fuel used by
`_try_start_next_tasks`. -/
theorem tryStartNext_props (s : SchedState) :
    (tryStartNext s).started ++ (tryStartNext s).pending = s.started ++ s.pending ∧
    (tryStartNext s).nextId = s.nextId ∧
    (tryStartNext s).maxProcesses = s.maxProcesses ∧
    (tryStartNext s).running.length ≤ max s.running.length s.maxProcesses :=
  tryStartLoop_props s.pending.length s

/-- Helper: the scheduler invariant — the bound on running workers and
the FIFO shape (admitted ids followed by queued ids are exactly
`0, 1, …, nextId−1` in submission order) — is preserved by every
scheduler transition. -/
theorem schedStep_inv (s s2 : SchedState) (h : SchedStep s s2)
    (hrun : s.running.length ≤ s.maxProcesses)
    (hfifo : s.started ++ s.pending = List.range s.nextId) :
    s2.running.length ≤ s2.maxProcesses ∧
    s2.started ++ s2.pending = List.range s2.nextId ∧
    s2.maxProcesses = s.maxProcesses := by
  have key : ∀ (s1 : SchedState) (dead : List Nat),
      s1.running.length ≤ s1.maxProcesses →
      s1.started ++ s1.pending = List.range s1.nextId →
      (tryStartNext (cleanupFinished s1 dead)).running.length ≤
        (tryStartNext (cleanupFinished s1 dead)).maxProcesses ∧
      (tryStartNext (cleanupFinished s1 dead)).started ++
        (tryStartNext (cleanupFinished s1 dead)).pending =
        List.range (tryStartNext (cleanupFinished s1 dead)).nextId ∧
      (tryStartNext (cleanupFinished s1 dead)).maxProcesses = s1.maxProcesses := by
    intro s1 dead h1 h2
    obtain ⟨p1, p2, p3, p4⟩ := tryStartNext_props (cleanupFinished s1 dead)
    have e1 : (cleanupFinished s1 dead).maxProcesses = s1.maxProcesses := rfl
    have e2 : (cleanupFinished s1 dead).running.length ≤ s1.running.length :=
      List.length_filter_le _ _
    refine ⟨?_, ?_, p3.trans e1⟩
    · rw [p3, e1]
      refine le_trans p4 ?_
      rw [e1]
      exact max_le (le_trans e2 h1) (le_refl _)
    · rw [p1, p2]
      exact h2
  cases h with
  | submit dead =>
    have hfifo2 : (⟨s.pending ++ [s.nextId], s.running, s.started, s.nextId + 1,
        s.maxProcesses⟩ : SchedState).started ++
        (⟨s.pending ++ [s.nextId], s.running, s.started, s.nextId + 1,
          s.maxProcesses⟩ : SchedState).pending =
        List.range (⟨s.pending ++ [s.nextId], s.running, s.started, s.nextId + 1,
          s.maxProcesses⟩ : SchedState).nextId := by
      show s.started ++ (s.pending ++ [s.nextId]) = List.range (s.nextId + 1)
      rw [← List.append_assoc, hfifo, List.range_succ]
    have := key ⟨s.pending ++ [s.nextId], s.running, s.started, s.nextId + 1,
      s.maxProcesses⟩ dead hrun hfifo2
    exact ⟨this.1, this.2.1, this.2.2⟩
  | poll dead =>
    have := key s dead hrun hfifo
    exact ⟨this.1, this.2.1, this.2.2⟩

/-- C8: in every reachable scheduler state the number of running workers
never exceeds the configured maximum, and the ids ever admitted followed
by the ids still queued are exactly `0, …, nextId−1` in submission
order — so admission is strictly FIFO: whenever a slot frees, it is the
head of the pending queue that starts. -/
theorem bounded_fifo_scheduler (maxProcesses : Nat) (s : SchedState)
    (h : SchedReachable maxProcesses s) :
    s.running.length ≤ s.maxProcesses ∧
    s.started ++ s.pending = List.range s.nextId ∧
    s.maxProcesses = maxProcesses := by
  induction h with
  | refl => exact ⟨by simp [initSched], by simp [initSched], rfl⟩
  | tail hr hstep ih =>
    obtain ⟨ih1, ih2, ih3⟩ := ih
    obtain ⟨g1, g2, g3⟩ := schedStep_inv _ _ hstep ih1 ih2
    exact ⟨g1, g2, g3.trans ih3⟩

/-- C8 witness: the invariant at the state reached by submitting two
jobs to a one-slot scheduler (the first is admitted, the second stays
queued). -/
theorem bounded_fifo_scheduler_witness :
    (submitVideo (submitVideo (initSched 1) []) []).running.length ≤
      (submitVideo (submitVideo (initSched 1) []) []).maxProcesses ∧
    (submitVideo (submitVideo (initSched 1) []) []).started ++
      (submitVideo (submitVideo (initSched 1) []) []).pending =
      List.range (submitVideo (submitVideo (initSched 1) []) []).nextId ∧
    (submitVideo (submitVideo (initSched 1) []) []).maxProcesses = 1 :=
  bounded_fifo_scheduler 1 _
    (Relation.ReflTransGen.tail
      (Relation.ReflTransGen.tail Relation.ReflTransGen.refl
        (SchedStep.submit (initSched 1) []))
      (SchedStep.submit (submitVideo (initSched 1) []) []))

/-- C2: round trip — for any SRT text that parses, re-emitting the
(id-sorted, as `translate_subtitles` does) entries and parsing again
yields exactly those entries, which are a permutation of the original
parse (same cue count, same ids, same timestamps, same text content);
and a trailing cue without a terminating blank line is flushed exactly
as if the blank line were present — that is, if and only if its index,
timestamp and at least one text line are all present. -/
theorem srt_round_trip :
    (∀ (s : String) (es : List SubEntry),
      parseSRTLines (pyLines s) = some es →
      parseSRTLines (pyLines (emitEntries (sortById es))) = some (sortById es) ∧
      (sortById es).Perm es) ∧
    (∀ lines : List String, parseSRTLines (lines ++ [""]) = parseSRTLines lines) := by
  constructor
  · intro s es h
    have hwf := parseSRT_WF s es h
    have hperm : (sortById es).Perm es := by
      rw [sortById]
      exact List.mergeSort_perm es _
    have hwf2 : ∀ e ∈ sortById es, WFEntry e := fun e he => hwf e (hperm.mem_iff.mp he)
    refine ⟨?_, hperm⟩
    rw [parseSRTLines, pyLines_emit _ hwf2, parseFold_append]
    have hmain := parseFold_lineStrs (sortById es) [] hwf2
    rw [initP, hmain, Option.some_bind, parseFold_cons, parseStep_blank _ "" rfl,
      Option.some_bind, parseFold_nil]
    simp [flushedEntries, completeCue]
  · exact parseSRTLines_append_blank

/-- C2 witness: the theorem applied to a concrete two-cue SRT file, and
the trailing-flush equivalence applied to a concrete unterminated line
list. -/
theorem srt_round_trip_witness :
    parseSRTLines (pyLines (emitEntries (sortById [demoCue1, demoCue2]))) =
      some (sortById [demoCue1, demoCue2]) ∧
    (sortById [demoCue1, demoCue2]).Perm [demoCue1, demoCue2] ∧
    parseSRTLines (["1", "00:00:01,000 --> 00:00:02,000", "Hello"] ++ [""]) =
      parseSRTLines ["1", "00:00:01,000 --> 00:00:02,000", "Hello"] :=
  ⟨(srt_round_trip.1 demoSrt [demoCue1, demoCue2] (by decide)).1,
   (srt_round_trip.1 demoSrt [demoCue1, demoCue2] (by decide)).2,
   srt_round_trip.2 ["1", "00:00:01,000 --> 00:00:02,000", "Hello"]⟩

/-- C10: the SRT parsing phase is not total — on a line holding the
superscript-two character, `line.isdigit()` is true but `int(line)`
raises `ValueError`, so parsing raises instead of discarding the
malformed line. -/
theorem parse_raises_on_superscript_digit :
    parseSRTLines ["²"] = none ∧ pyStrIsDigit "²" = true ∧ pyInt? "²" = none := by
  decide

end VideoCaptioner
